import Mathlib

/-!
Shallow embedding of the dependency-gated checklist engine of the
smart-dynamic-checklist repository (`src/app/page.tsx`).

Strings are modelled as lists of characters (`JStr`), JavaScript values
reaching the sanitizer as the inductive `JVal`, and the template strings
pushed into `messages` as the inductive `Msg` (one constructor per template,
carrying exactly the interpolated data).  `crypto.randomUUID()` is modelled
as a supply `gen : Nat → JStr` consumed in call order, and `Date.parse`
validity as an abstract predicate `parseOk : JStr → Bool`; `now` stands for
`new Date().toISOString()`.
-/

/-- Strings of the embedded program: JavaScript strings as character lists. -/
abbrev JStr := List Char

/-- Whitespace test used to model `String.prototype.trim` (ASCII part). -/
abbrev isWS (c : Char) : Bool := c.isWhitespace

/-- Embeds `String.prototype.trim`: drop whitespace from both ends. -/
def jsTrim (s : JStr) : JStr :=
  ((s.dropWhile isWS).reverse.dropWhile isWS).reverse

/-- JavaScript values that can reach the sanitizer from `JSON.parse` output,
plus `undefined` for absent properties.  Objects are represented by the six
properties the sanitizer reads. -/
inductive JVal where
  | vUndef : JVal
  | vNull : JVal
  | vBool (b : Bool) : JVal
  | vNum (n : Int) : JVal
  | vStr (s : JStr) : JVal
  | vArr (elems : List JVal) : JVal
  | vObj (id title description dependsOn aiGenerated createdAt : JVal) : JVal

namespace JVal

/-- Embeds JavaScript truthiness for the modelled values. -/
def truthy : JVal → Bool
  | vUndef => false
  | vNull => false
  | vBool b => b
  | vNum n => n != 0
  | vStr s => s ≠ []
  | vArr _ => true
  | vObj _ _ _ _ _ _ => true

/-- Embeds the acceptance guard `!entry || typeof entry !== "object"` of line
37: arrays and non-null objects pass, `null` is falsy, everything else has a
different `typeof`. -/
def isObjLike : JVal → Bool
  | vArr _ => true
  | vObj _ _ _ _ _ _ => true
  | _ => false

/-- Property access `entry.id` (arrays and non-objects yield `undefined`). -/
def fId : JVal → JVal
  | vObj i _ _ _ _ _ => i
  | _ => vUndef

/-- Property access `entry.title`. -/
def fTitle : JVal → JVal
  | vObj _ t _ _ _ _ => t
  | _ => vUndef

/-- Property access `entry.description`. -/
def fDescription : JVal → JVal
  | vObj _ _ d _ _ _ => d
  | _ => vUndef

/-- Property access `entry.dependsOn`. -/
def fDependsOn : JVal → JVal
  | vObj _ _ _ dep _ _ => dep
  | _ => vUndef

/-- Property access `entry.aiGenerated`. -/
def fAiGenerated : JVal → JVal
  | vObj _ _ _ _ ai _ => ai
  | _ => vUndef

/-- Property access `entry.createdAt`. -/
def fCreatedAt : JVal → JVal
  | vObj _ _ _ _ _ c => c
  | _ => vUndef

/-- Embeds `Array.isArray`. -/
def isArr : JVal → Bool
  | vArr _ => true
  | _ => false

/-- Embeds `typeof v === "string"` together with the string payload. -/
def asStr : JVal → Option JStr
  | vStr s => some s
  | _ => none

end JVal

/-- Embeds `Array.from(new Set(xs))` with an explicit already-seen set:
first occurrences survive, in insertion order. -/
def dedupFirstAux [DecidableEq α] (seen : List α) : List α → List α
  | [] => []
  | a :: l =>
    if a ∈ seen then dedupFirstAux seen l
    else a :: dedupFirstAux (a :: seen) l

/-- Embeds `Array.from(new Set(xs))`. -/
def dedupFirst [DecidableEq α] (l : List α) : List α := dedupFirstAux [] l

/-- The `ChecklistItem` record of `src/types/checklist.ts`. -/
structure ChecklistItem where
  id : JStr
  title : JStr
  description : Option JStr
  dependsOn : List JStr
  aiGenerated : Bool
  createdAt : JStr
deriving DecidableEq, Repr

/-- Diagnostics pushed by `sanitizeChecklistItems`, one constructor per
template string, carrying exactly the interpolated data. -/
inductive Msg where
  | skippedNotObject (index : Nat)
  | duplicateId (id newId : JStr) (index : Nat)
  | invalidDependsOn (title : JStr)
deriving DecidableEq, Repr

/-- Mutable context of one `sanitizeChecklistItems` run: the `seen` id set,
the number of `crypto.randomUUID()` calls made so far, and an instrumentation
flag recording that every replacement id minted for a duplicate was itself
unused at that point (always true for a collision-free UUID generator). -/
structure SanState where
  seen : List JStr
  ctr : Nat
  freshOk : Bool
deriving Repr

/-- The literal fallback title `"Untitled step"`. -/
def untitledStep : JStr :=
  ['U', 'n', 't', 'i', 't', 'l', 'e', 'd', ' ', 's', 't', 'e', 'p']

/-- Embeds lines 42-43: `candidateId = typeof id === "string" && id.trim()`
and `let id = candidateId || crypto.randomUUID()`; returns the resolved id
together with the updated UUID-call counter. -/
def resolveCand (gen : Nat → JStr) (ctr : Nat) (e : JVal) : JStr × Nat :=
  match e.fId with
  | JVal.vStr s => if jsTrim s = [] then (gen ctr, ctr + 1) else (jsTrim s, ctr)
  | _ => (gen ctr, ctr + 1)

/-- Candidate id of a raw entry when it provides one: the trimmed `id`
property if that is a string that is nonempty after trimming. -/
def candId (e : JVal) : Option JStr :=
  match e.fId with
  | JVal.vStr s => if jsTrim s = [] then none else some (jsTrim s)
  | _ => none

/-- Embeds lines 51-52: trimmed string title, `"Untitled step"` fallback. -/
def resolveTitle (e : JVal) : JStr :=
  match e.fTitle with
  | JVal.vStr s => if jsTrim s = [] then untitledStep else jsTrim s
  | _ => untitledStep

/-- Embeds line 53: the description passes through when a string, else it is
absent. -/
def resolveDesc (e : JVal) : Option JStr := JVal.asStr e.fDescription

/-- Embeds lines 55-66: keep the string entries of an array-valued
`dependsOn`, trimmed, nonempty, different from the item id, de-duplicated in
order; any non-array value becomes the empty list. -/
def resolveDeps (id : JStr) (rawDep : JVal) : List JStr :=
  match rawDep with
  | JVal.vArr l =>
      dedupFirst ((((l.filterMap JVal.asStr).map jsTrim).filter
        (fun d => d ≠ [])).filter (fun d => d ≠ id))
  | _ => []

/-- Embeds lines 67-69: the invalid-`dependsOn` diagnostic fires only when
the raw value is truthy and not an array. -/
def depMsgs (e : JVal) (title : JStr) : List Msg :=
  if e.fDependsOn.truthy && !e.fDependsOn.isArr then
    [Msg.invalidDependsOn title]
  else []

/-- Embeds lines 71-72: keep a string `createdAt` that parses as a date,
otherwise substitute the current time `now`. -/
def resolveCreatedAt (parseOk : JStr → Bool) (now : JStr) (e : JVal) : JStr :=
  let rc : JStr :=
    match e.fCreatedAt with
    | JVal.vStr s => s
    | _ => []
  if parseOk rc then rc else now

/-- Embeds lines 74-81: the item built for one accepted entry, given its
resolved id. -/
def mkItem (parseOk : JStr → Bool) (now : JStr) (id : JStr) (e : JVal) :
    ChecklistItem :=
  { id := id
    title := resolveTitle e
    description := resolveDesc e
    dependsOn := resolveDeps id e.fDependsOn
    aiGenerated := e.fAiGenerated.truthy
    createdAt := resolveCreatedAt parseOk now e }

/-- The replacement id of line 45, `` `${id}-${crypto.randomUUID().slice(0, 8)}` ``,
minted when the resolved id collides with an already-seen one. -/
def newIdOf (gen : Nat → JStr) (ctr : Nat) (e : JVal) : JStr :=
  (resolveCand gen ctr e).1 ++ '-' :: (gen (resolveCand gen ctr e).2).take 8

/-- Embeds the body of the `raw.map` callback of `sanitizeChecklistItems`
(lines 36-82) for one entry at `index`, threading the `seen` set and the
UUID counter. -/
def sanitizeEntry (gen : Nat → JStr) (parseOk : JStr → Bool) (now : JStr)
    (index : Nat) (e : JVal) (st : SanState) :
    Option ChecklistItem × List Msg × SanState :=
  if e.isObjLike then
    let c := resolveCand gen st.ctr e
    if c.1 ∈ st.seen then
      let newId := c.1 ++ '-' :: (gen c.2).take 8
      (some (mkItem parseOk now newId e),
        Msg.duplicateId c.1 newId index :: depMsgs e (resolveTitle e),
        ⟨newId :: st.seen, c.2 + 1, st.freshOk && decide (newId ∉ st.seen)⟩)
    else
      (some (mkItem parseOk now c.1 e),
        depMsgs e (resolveTitle e),
        ⟨c.1 :: st.seen, c.2, st.freshOk⟩)
  else (none, [Msg.skippedNotObject index], st)

/-- Runs `sanitizeEntry` over a list of raw entries numbered from `index`,
collecting accepted items and diagnostics in order. -/
def sanitizeGo (gen : Nat → JStr) (parseOk : JStr → Bool) (now : JStr) :
    Nat → List JVal → SanState →
    List ChecklistItem × List Msg × SanState
  | _, [], st => ([], [], st)
  | index, e :: rest, st =>
    let r := sanitizeEntry gen parseOk now index e st
    let rs := sanitizeGo gen parseOk now (index + 1) rest r.2.2
    (r.1.toList ++ rs.1, r.2.1 ++ rs.2.1, rs.2.2)

/-- Result of `sanitizeChecklistItems`: the valid items, the diagnostics,
and the freshness-instrumentation flag of the final `SanState`. -/
structure SanResult where
  items : List ChecklistItem
  messages : List Msg
  freshOk : Bool
deriving Repr

/-- Embeds `sanitizeChecklistItems` (lines 31-86). -/
def sanitizeChecklistItems (gen : Nat → JStr) (parseOk : JStr → Bool)
    (now : JStr) (raw : List JVal) : SanResult :=
  let r := sanitizeGo gen parseOk now 0 raw ⟨[], 0, true⟩
  ⟨r.1, r.2.1, r.2.2.freshOk⟩

/-- The runner completion record `Record<string, boolean>` as an association
list in key-insertion order (a JavaScript object keyed by item id). -/
abbrev RunnerState := List (JStr × Bool)

/-- Property read `runnerState[k]`. -/
def rsLookup (s : RunnerState) (k : JStr) : Option Bool :=
  (s.find? (fun p => p.1 = k)).map (fun p => p.2)

/-- Truthiness of `runnerState[k]` (absent reads as `undefined`, falsy). -/
def rsCompleted (s : RunnerState) (k : JStr) : Bool :=
  match rsLookup s k with
  | some b => b
  | none => false

/-- Embeds `delete next[k]`. -/
def rsDelete (s : RunnerState) (k : JStr) : RunnerState :=
  s.filter (fun p => p.1 ≠ k)

/-- Embeds `next[k] = b`: update in place when the key is present, append
otherwise. -/
def rsSet (s : RunnerState) (k : JStr) (b : Bool) : RunnerState :=
  if (s.find? (fun p => p.1 = k)).isSome then
    s.map (fun p => if p.1 = k then (k, b) else p)
  else s ++ [(k, b)]

/-- Embeds the runner checkbox `onChange` handler (lines 958-967): delete the
entry when it reads truthy, otherwise set it to `true`. -/
def toggleRunner (s : RunnerState) (k : JStr) : RunnerState :=
  if rsCompleted s k then rsDelete s k else rsSet s k true

/-- Embeds `visibleRunnerItems` (lines 480-485): the Visibility Resolver. -/
def visibleRunnerItems (items : List ChecklistItem) (rs : RunnerState) :
    List ChecklistItem :=
  items.filter (fun item =>
    if item.dependsOn.length = 0 then true
    else item.dependsOn.all (fun d => rsCompleted rs d))

/-- Embeds `completedCount` (line 487): `Object.keys(runnerState).length`. -/
def completedCount (s : RunnerState) : Nat := (s.map (fun p => p.1)).length

/-- Modelled from the spec sentence "`completedCount()`: number of entries
with a true flag"; compared against `completedCount` for claim C9. -/
def specTrueFlagCount (s : RunnerState) : Nat :=
  (s.filter (fun p => p.2)).length

/-- Embeds the Complete All Visible handler (lines 1010-1021): set every
currently visible item id to `true` on top of the current state. -/
def completeAllVisible (items : List ChecklistItem) (s : RunnerState) :
    RunnerState :=
  (visibleRunnerItems items s).foldl (fun acc item => rsSet acc item.id true) s

/-- Embeds `handleImport` (lines 419-478) as a function from the parsed
payload (`none` covering empty text and `JSON.parse` failure) and the prior
store to the store afterwards; `confirmed` is the `showImportConfirm` flag of
the replace-confirmation gate. -/
def handleImport (gen : Nat → JStr) (parseOk : JStr → Bool) (now : JStr)
    (payload : Option JVal) (prior : List ChecklistItem) (confirmed : Bool) :
    List ChecklistItem :=
  match payload with
  | none => prior
  | some v =>
    match v with
    | JVal.vArr l =>
      if l.length = 0 then prior
      else
        let r := sanitizeChecklistItems gen parseOk now l
        if r.items.length = 0 then prior
        else if prior.length ≠ 0 ∧ confirmed = false then prior
        else r.items
    | _ => prior

/-- Decides whether an import payload is rejected before any store mutation:
unparsable, not an array, an empty array, or sanitizing to zero items. -/
def importRejected (gen : Nat → JStr) (parseOk : JStr → Bool) (now : JStr)
    (payload : Option JVal) : Bool :=
  match payload with
  | none => true
  | some (JVal.vArr l) =>
      l.length = 0 ||
        (sanitizeChecklistItems gen parseOk now l).items.length = 0
  | some _ => true

/-- Elements fed to the sanitizer from the parsed generation response, per
line 381: `Array.isArray(parsed) ? parsed : []`. -/
def jarrElems : JVal → List JVal
  | JVal.vArr l => l
  | _ => []

/-- Embeds the tail of `handleGenerate` (lines 375-389): a `none` response is
any failed fetch/extraction/parse (an exception path that leaves the store
alone); a `some` response replaces the store with the sanitized items, with
no confirmation gate on this path. -/
def handleGenerate (gen : Nat → JStr) (parseOk : JStr → Bool) (now : JStr)
    (prior : List ChecklistItem) (response : Option JVal) :
    List ChecklistItem :=
  match response with
  | none => prior
  | some v => (sanitizeChecklistItems gen parseOk now (jarrElems v)).items

/-- Converts a sanitized item back to the raw JSON value its serialization
parses to, for feeding `sanitize` output into `sanitize` again (claim C5). -/
def itemToJVal (it : ChecklistItem) : JVal :=
  JVal.vObj (JVal.vStr it.id) (JVal.vStr it.title)
    (match it.description with
     | some s => JVal.vStr s
     | none => JVal.vUndef)
    (JVal.vArr (it.dependsOn.map JVal.vStr))
    (JVal.vBool it.aiGenerated)
    (JVal.vStr it.createdAt)

/-- Items as the sanitizer outputs them: trimmed nonempty id and title, a
parseable timestamp, and a deduplicated dependency list of trimmed nonempty
ids with the self-reference removed.  Used to show that a second sanitizer
pass performs no further repair. -/
def CleanItem (parseOk : JStr → Bool) (it : ChecklistItem) : Prop :=
  jsTrim it.id = it.id ∧ it.id ≠ [] ∧
  jsTrim it.title = it.title ∧ it.title ≠ [] ∧
  parseOk it.createdAt = true ∧ it.dependsOn.Nodup ∧
  ∀ d ∈ it.dependsOn, jsTrim d = d ∧ d ≠ [] ∧ d ≠ it.id

/-- The id supply behaves like `crypto.randomUUID()` as far as the character
shape is concerned: generated ids contain no whitespace and are nonempty. -/
def GenClean (gen : Nat → JStr) : Prop :=
  ∀ k, (∀ c ∈ gen k, isWS c = false) ∧ gen k ≠ []

/-- Fixture: a constant id supply for concrete evaluations. -/
def gen0 : Nat → JStr := fun _ => ['u']

/-- Fixture: a `Date.parse` model that accepts every string. -/
def parseOk0 : JStr → Bool := fun _ => true

/-- Fixture: a current-time string. -/
def now0 : JStr := ['n']

/-- Fixture: an item without dependencies. -/
def itemA : ChecklistItem := ⟨['a'], ['a'], none, [], false, ['n']⟩

/-- Fixture: an item depending on `itemA`. -/
def itemB : ChecklistItem := ⟨['b'], ['b'], none, [['a']], false, ['n']⟩

/-- Fixture: an item with a dangling dependency on id `x`. -/
def ghostItem : ChecklistItem := ⟨['c'], ['c'], none, [['x']], false, ['n']⟩

/-- Fixture: a raw object entry with id `a` and title `t`. -/
def rawDupA : JVal :=
  JVal.vObj (JVal.vStr ['a']) (JVal.vStr ['t']) JVal.vUndef JVal.vUndef
    JVal.vUndef JVal.vUndef

/-- Fixture: a raw object entry whose `dependsOn` is `null` (falsy and not an
array). -/
def rawNullDeps : JVal :=
  JVal.vObj (JVal.vStr ['a']) (JVal.vStr ['t']) JVal.vUndef JVal.vNull
    JVal.vUndef JVal.vUndef

/-- Fixture: a raw object entry whose `dependsOn` is the number `5` (truthy
and not an array). -/
def rawNumDeps : JVal :=
  JVal.vObj (JVal.vStr ['b']) (JVal.vStr ['t']) JVal.vUndef (JVal.vNum 5)
    JVal.vUndef JVal.vUndef

/-! ## Runner-state lemmas -/

theorem rsLookup_nil (j : JStr) : rsLookup [] j = none := rfl

theorem rsLookup_cons (p : JStr × Bool) (t : RunnerState) (j : JStr) :
    rsLookup (p :: t) j = if p.1 = j then some p.2 else rsLookup t j := by
  unfold rsLookup
  by_cases h : p.1 = j
  · rw [List.find?_cons_of_pos _ (by simpa using h), if_pos h]
    rfl
  · rw [List.find?_cons_of_neg _ (by simpa using h), if_neg h]

theorem rsDelete_cons (p : JStr × Bool) (t : RunnerState) (k : JStr) :
    rsDelete (p :: t) k =
      if p.1 = k then rsDelete t k else p :: rsDelete t k := by
  unfold rsDelete
  by_cases h : p.1 = k
  · rw [List.filter_cons_of_neg (by simpa using h), if_pos h]
  · rw [List.filter_cons_of_pos (by simpa using h), if_neg h]

theorem rsLookup_rsDelete (s : RunnerState) (k j : JStr) :
    rsLookup (rsDelete s k) j = if j = k then none else rsLookup s j := by
  induction s with
  | nil => by_cases hj : j = k <;> simp [rsDelete, rsLookup, hj]
  | cons p t ih =>
    rw [rsDelete_cons]
    by_cases hp : p.1 = k
    · rw [if_pos hp, ih, rsLookup_cons]
      by_cases hj : j = k
      · simp [hj]
      · have hq : ¬ p.1 = j := fun h => hj (h ▸ hp)
        simp [hj, hq]
    · rw [if_neg hp, rsLookup_cons, rsLookup_cons]
      by_cases hq : p.1 = j
      · have hj : ¬ j = k := fun h => hp ((hq.trans h))
        simp [hq, hj]
      · simp [hq, ih]

theorem rsLookup_mapUpdate (s : RunnerState) (k j : JStr) (b : Bool) :
    rsLookup (s.map (fun p => if p.1 = k then (k, b) else p)) j =
      if j = k then (rsLookup s k).map (fun _ => b) else rsLookup s j := by
  induction s with
  | nil => by_cases hj : j = k <;> simp [rsLookup, hj]
  | cons p t ih =>
    simp only [List.map_cons, rsLookup_cons]
    by_cases hp : p.1 = k
    · by_cases hj : j = k
      · subst hj
        simp [hp, ih]
      · have hkj : ¬ k = j := fun h => hj h.symm
        have hpj : ¬ p.1 = j := fun h => hkj (hp.symm.trans h)
        simp [hp, hj, hkj, hpj, ih]
    · by_cases hq : p.1 = j
      · have hj : ¬ j = k := fun h => hp (hq.trans h)
        simp [hp, hq, hj]
      · by_cases hj : j = k
        · subst hj
          simp [hp, hq, ih]
        · simp [hp, hq, hj, ih]

theorem rsLookup_append_single (s : RunnerState) (k j : JStr) (b : Bool) :
    rsLookup (s ++ [(k, b)]) j =
      match rsLookup s j with
      | some v => some v
      | none => if j = k then some b else none := by
  induction s with
  | nil =>
    rw [List.nil_append, rsLookup_cons]
    have h0 : rsLookup ([] : RunnerState) j = none := rfl
    rw [h0]
    show (if k = j then some b else none) = if j = k then some b else none
    by_cases hj : j = k
    · simp [hj]
    · have hkj : ¬ k = j := fun h => hj h.symm
      simp [hj, hkj]
  | cons p t ih =>
    rw [List.cons_append, rsLookup_cons, rsLookup_cons]
    by_cases hq : p.1 = j
    · simp [hq]
    · rw [if_neg hq, if_neg hq, ih]

theorem rsLookup_rsSet (s : RunnerState) (k j : JStr) (b : Bool) :
    rsLookup (rsSet s k b) j = if j = k then some b else rsLookup s j := by
  unfold rsSet
  by_cases h : (s.find? (fun p => p.1 = k)).isSome
  · rw [if_pos h, rsLookup_mapUpdate]
    by_cases hj : j = k
    · have hs : (rsLookup s k).isSome := by
        simpa [rsLookup, Option.isSome_map] using h
      rcases Option.isSome_iff_exists.mp hs with ⟨v, hv⟩
      simp [hj, hv]
    · simp [hj]
  · rw [if_neg h, rsLookup_append_single]
    have hnone : rsLookup s k = none := by
      rcases Option.not_isSome_iff_eq_none.mp h with hn
      simp [rsLookup, hn]
    by_cases hj : j = k
    · subst hj
      simp [hnone]
    · cases hv : rsLookup s j with
      | some v => simp [hv, hj]
      | none => simp [hv, hj]

theorem rsCompleted_rsSet (s : RunnerState) (k j : JStr) (b : Bool) :
    rsCompleted (rsSet s k b) j = if j = k then b else rsCompleted s j := by
  unfold rsCompleted
  rw [rsLookup_rsSet]
  by_cases hj : j = k <;> simp [hj]

theorem rsCompleted_rsDelete (s : RunnerState) (k j : JStr) :
    rsCompleted (rsDelete s k) j = if j = k then false else rsCompleted s j := by
  unfold rsCompleted
  rw [rsLookup_rsDelete]
  by_cases hj : j = k <;> simp [hj]

/-! ## Visibility Resolver -/

theorem mem_visibleRunnerItems (items : List ChecklistItem) (rs : RunnerState)
    (I : ChecklistItem) (h : I ∈ items) :
    I ∈ visibleRunnerItems items rs ↔
      ∀ d ∈ I.dependsOn, rsCompleted rs d = true := by
  unfold visibleRunnerItems
  rw [List.mem_filter]
  constructor
  · rintro ⟨-, hp⟩
    by_cases hl : I.dependsOn.length = 0
    · intro d hd
      rw [List.length_eq_zero] at hl
      rw [hl] at hd
      cases hd
    · rw [if_neg hl] at hp
      intro d hd
      exact List.all_eq_true.mp hp d hd
  · intro hall
    refine ⟨h, ?_⟩
    by_cases hl : I.dependsOn.length = 0
    · rw [if_pos hl]
    · rw [if_neg hl]
      exact List.all_eq_true.mpr (fun d hd => hall d hd)

/-- C1: AND-gate correctness of the Visibility Resolver — an item of the
store is in `visibleRunnerItems` exactly when every id of its `dependsOn`
reads `true` in the runner state; with an empty `dependsOn` the condition is
vacuous, so the item is always actionable, in particular under the empty
runner state. -/
theorem visibility_and_gate (items : List ChecklistItem) (rs : RunnerState)
    (I : ChecklistItem) (h : I ∈ items) :
    I ∈ visibleRunnerItems items rs ↔
      ∀ d ∈ I.dependsOn, rsCompleted rs d = true :=
  mem_visibleRunnerItems items rs I h

/-- Witness for `visibility_and_gate` at a concrete store and state. -/
theorem visibility_and_gate_witness :
    itemB ∈ [itemA, itemB] ∧
      (itemB ∈ visibleRunnerItems [itemA, itemB] [((['a'] : JStr), true)] ↔
        ∀ d ∈ itemB.dependsOn,
          rsCompleted [((['a'] : JStr), true)] d = true) :=
  ⟨by decide, visibility_and_gate _ _ _ (by decide)⟩

/-- C2 counterexample: the resolver consults only the runner state, so an
item whose dependency id has no corresponding item in the store does appear
in the actionable output once the runner state carries a stray `true` entry
for that nonexistent id — refuting "never appears regardless of the runner
state's contents". -/
theorem dangling_dep_cex :
    (∀ it ∈ [ghostItem], it.id ≠ (['x'] : JStr)) ∧
      ghostItem ∈ visibleRunnerItems [ghostItem] [((['x'] : JStr), true)] := by
  decide

/-- C2 (amended): an item with a dangling dependency never appears in the
actionable output for any runner state whose `true` entries all belong to
ids of existing items — in particular for every state reachable by toggling
items of the store — though a stray `true` entry for the missing id would
unblock it. -/
theorem dangling_dep_blocked (items : List ChecklistItem) (rs : RunnerState)
    (I : ChecklistItem) (d : JStr) (hI : I ∈ items) (hd : d ∈ I.dependsOn)
    (hdangling : ∀ it ∈ items, it.id ≠ d)
    (hsane : ∀ k : JStr, rsCompleted rs k = true → ∃ it ∈ items, it.id = k) :
    I ∉ visibleRunnerItems items rs := by
  intro hmem
  have hall := (mem_visibleRunnerItems items rs I hI).mp hmem
  rcases hsane d (hall d hd) with ⟨it, hit, hid⟩
  exact hdangling it hit hid

/-- Witness for `dangling_dep_blocked` at a concrete store and the empty
runner state. -/
theorem dangling_dep_blocked_witness :
    ghostItem ∈ [ghostItem] ∧ (['x'] : JStr) ∈ ghostItem.dependsOn ∧
      ghostItem ∉ visibleRunnerItems [ghostItem] ([] : RunnerState) :=
  ⟨by decide, by decide,
    dangling_dep_blocked [ghostItem] [] ghostItem (['x'] : JStr) (by decide)
      (by decide) (by decide)
      (fun k h => by simp [rsCompleted, rsLookup] at h)⟩

/-! ## Run State operations -/

/-- C6: toggling the same id twice restores the completedness of every id,
even though the representation may change (a `false` entry becomes an absent
one). -/
theorem toggle_involution (s : RunnerState) (k j : JStr) :
    rsCompleted (toggleRunner (toggleRunner s k) k) j = rsCompleted s j := by
  unfold toggleRunner
  by_cases h : rsCompleted s k = true
  · rw [if_pos h]
    have h1 : rsCompleted (rsDelete s k) k = false := by
      rw [rsCompleted_rsDelete]
      simp
    rw [if_neg (by simp [h1]), rsCompleted_rsSet, rsCompleted_rsDelete]
    by_cases hj : j = k
    · simp [hj, h]
    · simp [hj]
  · have hb : rsCompleted s k = false := by
      cases hc : rsCompleted s k
      · rfl
      · exact absurd hc h
    rw [if_neg h]
    have h1 : rsCompleted (rsSet s k true) k = true := by
      rw [rsCompleted_rsSet]
      simp
    rw [if_pos h1, rsCompleted_rsDelete, rsCompleted_rsSet]
    by_cases hj : j = k
    · simp [hj, hb]
    · simp [hj]

theorem rsCompleted_foldl_rsSet (l : List ChecklistItem) (acc : RunnerState)
    (j : JStr) (h : rsCompleted acc j = true) :
    rsCompleted (l.foldl (fun a it => rsSet a it.id true) acc) j = true := by
  induction l generalizing acc with
  | nil => exact h
  | cons it t ih =>
    rw [List.foldl_cons]
    apply ih
    rw [rsCompleted_rsSet]
    by_cases hj : j = it.id
    · simp [hj]
    · simp [hj, h]

/-- C7: after Complete All Visible sets every currently actionable id to
`true`, every previously actionable item is still actionable — the resolver
output only grows. -/
theorem bulk_complete_superset (items : List ChecklistItem) (s : RunnerState)
    (x : ChecklistItem) (hx : x ∈ visibleRunnerItems items s) :
    x ∈ visibleRunnerItems items (completeAllVisible items s) := by
  have hmem : x ∈ items := (List.mem_filter.mp hx).1
  have hall := (mem_visibleRunnerItems items s x hmem).mp hx
  refine (mem_visibleRunnerItems items (completeAllVisible items s) x hmem).mpr ?_
  intro d hd
  unfold completeAllVisible
  exact rsCompleted_foldl_rsSet _ _ _ (hall d hd)

/-- Witness for `bulk_complete_superset` at a concrete store and state. -/
theorem bulk_complete_superset_witness :
    itemA ∈ visibleRunnerItems [itemA, itemB] ([] : RunnerState) ∧
      itemA ∈ visibleRunnerItems [itemA, itemB]
        (completeAllVisible [itemA, itemB] ([] : RunnerState)) :=
  ⟨by decide, bulk_complete_superset _ _ _ (by decide)⟩

/-- C9 counterexample: `completedCount` is the number of keys of the runner
record, so a state carrying an explicit `false` entry is counted although its
flag is not true — refuting "equals the number of entries whose flag is
true" over all runner states. -/
theorem completedCount_cex :
    completedCount [((['a'] : JStr), false)] ≠
      specTrueFlagCount [((['a'] : JStr), false)] := by decide

/-- C9 (amended): `completedCount` counts every entry present in the runner
state regardless of its flag; on states whose entries are all `true` — a
shape that toggling preserves, and the only shape the UI itself writes — it
coincides with the number of true flags. -/
theorem completedCount_all_true (s : RunnerState) (k : JStr)
    (h : ∀ p ∈ s, p.2 = true) :
    completedCount s = specTrueFlagCount s ∧
      ∀ p ∈ toggleRunner s k, p.2 = true := by
  constructor
  · unfold completedCount specTrueFlagCount
    rw [List.filter_eq_self.mpr (fun p hp => by simp [h p hp])]
    simp
  · intro p hp
    unfold toggleRunner at hp
    by_cases hc : rsCompleted s k = true
    · rw [if_pos hc] at hp
      exact h p (List.mem_filter.mp hp).1
    · rw [if_neg hc] at hp
      unfold rsSet at hp
      by_cases hf : (s.find? (fun q => q.1 = k)).isSome
      · rw [if_pos hf] at hp
        rcases List.mem_map.mp hp with ⟨q, hq, hqe⟩
        by_cases hqk : q.1 = k
        · rw [if_pos hqk] at hqe
          rw [← hqe]
        · rw [if_neg hqk] at hqe
          rw [← hqe]
          exact h q hq
      · rw [if_neg hf] at hp
        rcases List.mem_append.mp hp with hq | hq
        · exact h p hq
        · simp only [List.mem_singleton] at hq
          rw [hq]

/-- Witness for `completedCount_all_true` at a concrete all-true state. -/
theorem completedCount_all_true_witness :
    (∀ p ∈ [((['a'] : JStr), true)], p.2 = true) ∧
      (completedCount [((['a'] : JStr), true)] =
          specTrueFlagCount [((['a'] : JStr), true)] ∧
        ∀ p ∈ toggleRunner [((['a'] : JStr), true)] ['b'], p.2 = true) :=
  ⟨by decide, completedCount_all_true _ _ (by decide)⟩

/-! ## Import and generation -/

/-- C3: every rejected import path — unparsable payload, non-array payload,
empty array, or an array sanitizing to zero valid items — leaves the
checklist store exactly as it was. -/
theorem import_rejected_preserves_store (gen : Nat → JStr)
    (parseOk : JStr → Bool) (now : JStr) (payload : Option JVal)
    (prior : List ChecklistItem) (confirmed : Bool)
    (h : importRejected gen parseOk now payload = true) :
    handleImport gen parseOk now payload prior confirmed = prior := by
  cases payload with
  | none => rfl
  | some v =>
    cases v
    case vArr l =>
      simp only [importRejected, Bool.or_eq_true, decide_eq_true_eq] at h
      simp only [handleImport]
      rcases h with h0 | h0
      · rw [if_pos h0]
      · by_cases hl : l.length = 0
        · rw [if_pos hl]
        · rw [if_neg hl, if_pos h0]
    all_goals rfl

/-- Witness for `import_rejected_preserves_store` on an empty-array payload
against a nonempty store. -/
theorem import_rejected_preserves_store_witness :
    importRejected gen0 parseOk0 now0 (some (JVal.vArr [])) = true ∧
      handleImport gen0 parseOk0 now0 (some (JVal.vArr [])) [itemA] false =
        [itemA] :=
  ⟨by decide, import_rejected_preserves_store _ _ _ _ _ _ (by decide)⟩

/-- C10: a successful generation replaces the checklist store wholesale with
the sanitized parsed response — the result is the sanitizer output alone and
does not depend on the prior store contents, with no confirmation gate on
this path. -/
theorem generate_wholesale_replace (gen : Nat → JStr) (parseOk : JStr → Bool)
    (now : JStr) (prior prior2 : List ChecklistItem) (v : JVal) :
    handleGenerate gen parseOk now prior (some v) =
        (sanitizeChecklistItems gen parseOk now (jarrElems v)).items ∧
      handleGenerate gen parseOk now prior (some v) =
        handleGenerate gen parseOk now prior2 (some v) :=
  ⟨rfl, rfl⟩

/-! ## Trim lemmas -/

theorem dropWhile_decomp (p : α → Bool) (l : List α) :
    ∃ t, (∀ c ∈ t, p c = true) ∧ t ++ l.dropWhile p = l := by
  induction l with
  | nil => exact ⟨[], by simp, rfl⟩
  | cons a l ih =>
    by_cases h : p a
    · rcases ih with ⟨t, ht, he⟩
      refine ⟨a :: t, ?_, ?_⟩
      · intro c hc
        rcases List.mem_cons.mp hc with hc | hc
        · rw [hc]; exact h
        · exact ht c hc
      · rw [List.dropWhile_cons_of_pos h, List.cons_append, he]
    · exact ⟨[], by simp, by rw [List.dropWhile_cons_of_neg h, List.nil_append]⟩

theorem length_dropWhile_le_len (p : α → Bool) (l : List α) :
    (l.dropWhile p).length ≤ l.length := by
  rcases dropWhile_decomp p l with ⟨t, -, he⟩
  have := congrArg List.length he
  rw [List.length_append] at this
  omega

theorem dropWhile_head_false (p : α → Bool) (l : List α) (c : α) (r : List α)
    (h : l.dropWhile p = c :: r) : p c = false := by
  induction l with
  | nil => cases h
  | cons a t ih =>
    by_cases ha : p a
    · rw [List.dropWhile_cons_of_pos ha] at h
      exact ih h
    · rw [List.dropWhile_cons_of_neg ha] at h
      cases h
      exact Bool.not_eq_true _ ▸ (by simpa using ha)

theorem dropWhile_idem (p : α → Bool) (l : List α) :
    (l.dropWhile p).dropWhile p = l.dropWhile p := by
  cases h : l.dropWhile p with
  | nil => rfl
  | cons c r =>
    exact List.dropWhile_cons_of_neg (by simp [dropWhile_head_false p l c r h])

theorem jsTrim_front_fixed (s : JStr) (h : jsTrim s = s) :
    s.dropWhile isWS = s := by
  rcases dropWhile_decomp isWS s with ⟨t, -, he⟩
  have h1 : (jsTrim s).length ≤ (s.dropWhile isWS).length := by
    unfold jsTrim
    rw [List.length_reverse]
    calc ((s.dropWhile isWS).reverse.dropWhile isWS).length
        ≤ (s.dropWhile isWS).reverse.length := length_dropWhile_le_len _ _
      _ = (s.dropWhile isWS).length := List.length_reverse _
  have h3 : (jsTrim s).length = s.length := by rw [h]
  have h5 : t.length = 0 := by
    have := congrArg List.length he
    rw [List.length_append] at this
    omega
  rw [List.length_eq_zero.mp h5, List.nil_append] at he
  exact he

theorem jsTrim_back_fixed (s : JStr) (h : jsTrim s = s) :
    s.reverse.dropWhile isWS = s.reverse := by
  have hf := jsTrim_front_fixed s h
  unfold jsTrim at h
  rw [hf] at h
  have := congrArg List.reverse h
  simpa using this

theorem jsTrim_of_fixed (s : JStr) (hf : s.dropWhile isWS = s)
    (hb : s.reverse.dropWhile isWS = s.reverse) : jsTrim s = s := by
  unfold jsTrim
  rw [hf, hb]
  exact List.reverse_reverse s

theorem jsTrim_idem (s : JStr) : jsTrim (jsTrim s) = jsTrim s := by
  apply jsTrim_of_fixed
  · cases h : jsTrim s with
    | nil => rfl
    | cons c tt =>
      rcases dropWhile_decomp isWS (s.dropWhile isWS).reverse with ⟨t, -, he⟩
      have he2 : jsTrim s ++ t.reverse = s.dropWhile isWS := by
        have := congrArg List.reverse he
        simpa [jsTrim, List.reverse_append] using this
      rw [h, List.cons_append] at he2
      exact List.dropWhile_cons_of_neg
        (by simp [dropWhile_head_false isWS s c _ he2.symm])
  · have hrev : (jsTrim s).reverse = (s.dropWhile isWS).reverse.dropWhile isWS := by
      unfold jsTrim
      rw [List.reverse_reverse]
    rw [hrev]
    exact dropWhile_idem _ _

theorem jsTrim_of_noWS (s : JStr) (h : ∀ c ∈ s, isWS c = false) :
    jsTrim s = s := by
  apply jsTrim_of_fixed
  · cases s with
    | nil => rfl
    | cons c t =>
      exact List.dropWhile_cons_of_neg (by simp [h c (by simp)])
  · cases hr : s.reverse with
    | nil => rfl
    | cons c t =>
      have hc : c ∈ s := by
        rw [← List.mem_reverse, hr]
        simp
      exact List.dropWhile_cons_of_neg (by simp [h c hc])

theorem jsTrim_append_sep (a b : JStr) (ha : jsTrim a = a) (hne : a ≠ [])
    (hb : ∀ c ∈ b, isWS c = false) :
    jsTrim (a ++ '-' :: b) = a ++ '-' :: b := by
  apply jsTrim_of_fixed
  · cases a with
    | nil => exact absurd rfl hne
    | cons c t =>
      have hf := jsTrim_front_fixed _ ha
      have hc : isWS c = false := dropWhile_head_false isWS (c :: t) c t hf
      rw [List.cons_append]
      exact List.dropWhile_cons_of_neg (by simp [hc])
  · rw [List.reverse_append, List.reverse_cons]
    cases hbr : b.reverse with
    | nil =>
      simp only [List.nil_append, List.singleton_append]
      exact List.dropWhile_cons_of_neg (by decide)
    | cons c t =>
      have hc : c ∈ b := by
        rw [← List.mem_reverse, hbr]
        simp
      simp only [List.cons_append]
      exact List.dropWhile_cons_of_neg (by simp [hb c hc])

theorem ne_append_cons (a : JStr) (x : Char) (t : JStr) : a ++ x :: t ≠ a := by
  intro h
  have := congrArg List.length h
  rw [List.length_append, List.length_cons] at this
  omega

/-! ## Dedup lemmas -/

theorem mem_dedupFirstAux [DecidableEq α] (l : List α) :
    ∀ (seen : List α) (x : α), x ∈ dedupFirstAux seen l → x ∈ l := by
  induction l with
  | nil => intro seen x h; cases h
  | cons a t ih =>
    intro seen x h
    unfold dedupFirstAux at h
    by_cases ha : a ∈ seen
    · rw [if_pos ha] at h
      exact List.mem_cons_of_mem a (ih seen x h)
    · rw [if_neg ha] at h
      rcases List.mem_cons.mp h with he | ht
      · rw [he]; exact List.mem_cons_self a t
      · exact List.mem_cons_of_mem a (ih (a :: seen) x ht)

theorem dedupFirstAux_nodup [DecidableEq α] (l : List α) :
    ∀ seen : List α, (dedupFirstAux seen l).Nodup ∧
      ∀ x ∈ dedupFirstAux seen l, x ∉ seen := by
  induction l with
  | nil => intro seen; exact ⟨List.nodup_nil, by intro x h; cases h⟩
  | cons a t ih =>
    intro seen
    unfold dedupFirstAux
    by_cases ha : a ∈ seen
    · rw [if_pos ha]; exact ih seen
    · rw [if_neg ha]
      rcases ih (a :: seen) with ⟨hn, hs⟩
      constructor
      · rw [List.nodup_cons]
        exact ⟨fun hmem => (hs a hmem) (List.mem_cons_self a seen), hn⟩
      · intro x hx
        rcases List.mem_cons.mp hx with he | ht
        · rw [he]; exact ha
        · exact fun hxs => hs x ht (List.mem_cons_of_mem a hxs)

theorem dedupFirstAux_eq_self [DecidableEq α] (l : List α) :
    ∀ seen : List α, l.Nodup → (∀ x ∈ l, x ∉ seen) →
      dedupFirstAux seen l = l := by
  induction l with
  | nil => intro seen _ _; rfl
  | cons a t ih =>
    intro seen hn hd
    unfold dedupFirstAux
    rw [if_neg (hd a (List.mem_cons_self a t))]
    congr 1
    apply ih
    · exact (List.nodup_cons.mp hn).2
    · intro x hx hmem
      rcases List.mem_cons.mp hmem with he | hs
      · rw [he] at hx
        exact (List.nodup_cons.mp hn).1 hx
      · exact hd x (List.mem_cons_of_mem a hx) hs

theorem dedupFirst_nodup [DecidableEq α] (l : List α) : (dedupFirst l).Nodup :=
  (dedupFirstAux_nodup l []).1

theorem mem_dedupFirst [DecidableEq α] (l : List α) (x : α)
    (h : x ∈ dedupFirst l) : x ∈ l :=
  mem_dedupFirstAux l [] x h

theorem dedupFirst_eq_self [DecidableEq α] (l : List α) (hn : l.Nodup) :
    dedupFirst l = l :=
  dedupFirstAux_eq_self l [] hn (by intro x _ h; cases h)

/-! ## Sanitizer step equations -/

theorem sanitizeEntry_skip (gen : Nat → JStr) (parseOk : JStr → Bool)
    (now : JStr) (i : Nat) (e : JVal) (st : SanState)
    (h : e.isObjLike = false) :
    sanitizeEntry gen parseOk now i e st =
      (none, [Msg.skippedNotObject i], st) := by
  unfold sanitizeEntry
  rw [if_neg (by simp [h])]

theorem sanitizeEntry_new (gen : Nat → JStr) (parseOk : JStr → Bool)
    (now : JStr) (i : Nat) (e : JVal) (st : SanState)
    (h : e.isObjLike = true)
    (hs : (resolveCand gen st.ctr e).1 ∉ st.seen) :
    sanitizeEntry gen parseOk now i e st =
      (some (mkItem parseOk now (resolveCand gen st.ctr e).1 e),
        depMsgs e (resolveTitle e),
        ⟨(resolveCand gen st.ctr e).1 :: st.seen,
          (resolveCand gen st.ctr e).2, st.freshOk⟩) := by
  simp only [sanitizeEntry]
  rw [if_pos h, if_neg hs]

theorem sanitizeEntry_dup (gen : Nat → JStr) (parseOk : JStr → Bool)
    (now : JStr) (i : Nat) (e : JVal) (st : SanState)
    (h : e.isObjLike = true)
    (hs : (resolveCand gen st.ctr e).1 ∈ st.seen) :
    sanitizeEntry gen parseOk now i e st =
      (some (mkItem parseOk now (newIdOf gen st.ctr e) e),
        Msg.duplicateId (resolveCand gen st.ctr e).1 (newIdOf gen st.ctr e) i ::
          depMsgs e (resolveTitle e),
        ⟨newIdOf gen st.ctr e :: st.seen, (resolveCand gen st.ctr e).2 + 1,
          st.freshOk && decide (newIdOf gen st.ctr e ∉ st.seen)⟩) := by
  simp only [sanitizeEntry, newIdOf]
  rw [if_pos h, if_pos hs]

theorem sanitizeGo_nil (gen : Nat → JStr) (parseOk : JStr → Bool) (now : JStr)
    (i : Nat) (st : SanState) :
    sanitizeGo gen parseOk now i [] st = ([], [], st) := rfl

theorem sanitizeGo_cons (gen : Nat → JStr) (parseOk : JStr → Bool) (now : JStr)
    (i : Nat) (e : JVal) (rest : List JVal) (st : SanState) :
    sanitizeGo gen parseOk now i (e :: rest) st =
      ((sanitizeEntry gen parseOk now i e st).1.toList ++
          (sanitizeGo gen parseOk now (i + 1) rest
            (sanitizeEntry gen parseOk now i e st).2.2).1,
        (sanitizeEntry gen parseOk now i e st).2.1 ++
          (sanitizeGo gen parseOk now (i + 1) rest
            (sanitizeEntry gen parseOk now i e st).2.2).2.1,
        (sanitizeGo gen parseOk now (i + 1) rest
          (sanitizeEntry gen parseOk now i e st).2.2).2.2) := rfl

/-! ## Sanitizer invariants -/

theorem sanitizeEntry_none_iff (gen : Nat → JStr) (parseOk : JStr → Bool)
    (now : JStr) (i : Nat) (e : JVal) (st : SanState) :
    (sanitizeEntry gen parseOk now i e st).1 = none ↔
      e.isObjLike = false := by
  by_cases h : e.isObjLike = true
  · constructor
    · intro hn
      by_cases hs : (resolveCand gen st.ctr e).1 ∈ st.seen
      · rw [sanitizeEntry_dup gen parseOk now i e st h hs] at hn
        cases hn
      · rw [sanitizeEntry_new gen parseOk now i e st h hs] at hn
        cases hn
    · intro hb
      rw [h] at hb
      cases hb
  · have hb : e.isObjLike = false := by simpa using h
    rw [sanitizeEntry_skip gen parseOk now i e st hb]
    simp [hb]

theorem sanitizeEntry_skip_state (gen : Nat → JStr) (parseOk : JStr → Bool)
    (now : JStr) (i : Nat) (e : JVal) (st : SanState)
    (h : e.isObjLike = false) :
    (sanitizeEntry gen parseOk now i e st).2.2 = st := by
  rw [sanitizeEntry_skip gen parseOk now i e st h]

theorem sanitizeEntry_accept_seen (gen : Nat → JStr) (parseOk : JStr → Bool)
    (now : JStr) (i : Nat) (e : JVal) (st : SanState) (it : ChecklistItem)
    (hacc : (sanitizeEntry gen parseOk now i e st).1 = some it) :
    (sanitizeEntry gen parseOk now i e st).2.2.seen = it.id :: st.seen := by
  by_cases h : e.isObjLike = true
  · by_cases hs : (resolveCand gen st.ctr e).1 ∈ st.seen
    · rw [sanitizeEntry_dup gen parseOk now i e st h hs] at hacc ⊢
      rw [← Option.some.inj hacc]
      rfl
    · rw [sanitizeEntry_new gen parseOk now i e st h hs] at hacc ⊢
      rw [← Option.some.inj hacc]
      rfl
  · have hb : e.isObjLike = false := by simpa using h
    rw [sanitizeEntry_skip gen parseOk now i e st hb] at hacc
    cases hacc

theorem sanitizeEntry_accept_fresh (gen : Nat → JStr) (parseOk : JStr → Bool)
    (now : JStr) (i : Nat) (e : JVal) (st : SanState) (it : ChecklistItem)
    (hacc : (sanitizeEntry gen parseOk now i e st).1 = some it)
    (hok : (sanitizeEntry gen parseOk now i e st).2.2.freshOk = true) :
    it.id ∉ st.seen := by
  by_cases h : e.isObjLike = true
  · by_cases hs : (resolveCand gen st.ctr e).1 ∈ st.seen
    · rw [sanitizeEntry_dup gen parseOk now i e st h hs] at hacc hok
      have hd := (Bool.and_eq_true _ _).mp hok
      have hnid := of_decide_eq_true hd.2
      rw [← Option.some.inj hacc]
      exact hnid
    · rw [sanitizeEntry_new gen parseOk now i e st h hs] at hacc
      rw [← Option.some.inj hacc]
      exact hs
  · have hb : e.isObjLike = false := by simpa using h
    rw [sanitizeEntry_skip gen parseOk now i e st hb] at hacc
    cases hacc

theorem sanitizeEntry_freshOk_imp (gen : Nat → JStr) (parseOk : JStr → Bool)
    (now : JStr) (i : Nat) (e : JVal) (st : SanState)
    (hok : (sanitizeEntry gen parseOk now i e st).2.2.freshOk = true) :
    st.freshOk = true := by
  by_cases h : e.isObjLike = true
  · by_cases hs : (resolveCand gen st.ctr e).1 ∈ st.seen
    · rw [sanitizeEntry_dup gen parseOk now i e st h hs] at hok
      exact ((Bool.and_eq_true _ _).mp hok).1
    · rw [sanitizeEntry_new gen parseOk now i e st h hs] at hok
      exact hok
  · have hb : e.isObjLike = false := by simpa using h
    rw [sanitizeEntry_skip gen parseOk now i e st hb] at hok
    exact hok

theorem sanitizeEntry_seen_sub (gen : Nat → JStr) (parseOk : JStr → Bool)
    (now : JStr) (i : Nat) (e : JVal) (st : SanState) (x : JStr)
    (hx : x ∈ st.seen) :
    x ∈ (sanitizeEntry gen parseOk now i e st).2.2.seen := by
  by_cases h : e.isObjLike = true
  · by_cases hs : (resolveCand gen st.ctr e).1 ∈ st.seen
    · rw [sanitizeEntry_dup gen parseOk now i e st h hs]
      exact List.mem_cons_of_mem _ hx
    · rw [sanitizeEntry_new gen parseOk now i e st h hs]
      exact List.mem_cons_of_mem _ hx
  · have hb : e.isObjLike = false := by simpa using h
    rw [sanitizeEntry_skip gen parseOk now i e st hb]
    exact hx

theorem sanitizeGo_freshOk_imp (gen : Nat → JStr) (parseOk : JStr → Bool)
    (now : JStr) (l : List JVal) :
    ∀ (i : Nat) (st : SanState),
      (sanitizeGo gen parseOk now i l st).2.2.freshOk = true →
      st.freshOk = true := by
  induction l with
  | nil => intro i st h; rw [sanitizeGo_nil] at h; exact h
  | cons e rest ih =>
    intro i st h
    rw [sanitizeGo_cons] at h
    exact sanitizeEntry_freshOk_imp gen parseOk now i e st (ih (i + 1) _ h)

theorem sanitizeGo_seen_sub (gen : Nat → JStr) (parseOk : JStr → Bool)
    (now : JStr) (l : List JVal) :
    ∀ (i : Nat) (st : SanState) (x : JStr), x ∈ st.seen →
      x ∈ (sanitizeGo gen parseOk now i l st).2.2.seen := by
  induction l with
  | nil => intro i st x hx; rw [sanitizeGo_nil]; exact hx
  | cons e rest ih =>
    intro i st x hx
    rw [sanitizeGo_cons]
    exact ih (i + 1) _ x (sanitizeEntry_seen_sub gen parseOk now i e st x hx)

theorem sanitizeGo_ids (gen : Nat → JStr) (parseOk : JStr → Bool)
    (now : JStr) (l : List JVal) :
    ∀ (i : Nat) (st : SanState),
      (sanitizeGo gen parseOk now i l st).2.2.freshOk = true →
      ((sanitizeGo gen parseOk now i l st).1.map (fun it => it.id)).Nodup ∧
        ∀ it ∈ (sanitizeGo gen parseOk now i l st).1,
          it.id ∈ (sanitizeGo gen parseOk now i l st).2.2.seen ∧
            it.id ∉ st.seen := by
  induction l with
  | nil =>
    intro i st _
    rw [sanitizeGo_nil]
    exact ⟨List.nodup_nil, by intro it h; cases h⟩
  | cons e rest ih =>
    intro i st hok
    rw [sanitizeGo_cons] at hok ⊢
    have hok2 : (sanitizeGo gen parseOk now (i + 1) rest
        (sanitizeEntry gen parseOk now i e st).2.2).2.2.freshOk = true := hok
    have hst1ok : (sanitizeEntry gen parseOk now i e st).2.2.freshOk = true :=
      sanitizeGo_freshOk_imp gen parseOk now rest (i + 1) _ hok2
    obtain ⟨hnd, hmem⟩ := ih (i + 1) _ hok2
    cases hacc : (sanitizeEntry gen parseOk now i e st).1 with
    | none =>
      have hobj := (sanitizeEntry_none_iff gen parseOk now i e st).mp hacc
      have hstate := sanitizeEntry_skip_state gen parseOk now i e st hobj
      constructor
      · simpa [hacc] using hnd
      · intro it hit
        simp only [hacc, Option.toList_none, List.nil_append] at hit ⊢
        obtain ⟨h1, h2⟩ := hmem it hit
        rw [hstate] at h2
        exact ⟨h1, h2⟩
    | some it0 =>
      have hseen := sanitizeEntry_accept_seen gen parseOk now i e st it0 hacc
      have hfr := sanitizeEntry_accept_fresh gen parseOk now i e st it0 hacc hst1ok
      constructor
      · simp only [hacc, Option.toList_some, List.singleton_append, List.map_cons]
        rw [List.nodup_cons]
        constructor
        · intro hmem0
          rcases List.mem_map.mp hmem0 with ⟨it1, hit1, hid1⟩
          have h2 := (hmem it1 hit1).2
          rw [hseen] at h2
          exact h2 (hid1 ▸ List.mem_cons_self _ _)
        · exact hnd
      · intro it hit
        simp only [hacc, Option.toList_some, List.singleton_append] at hit
        rcases List.mem_cons.mp hit with he | ht
        · constructor
          · rw [he]
            apply sanitizeGo_seen_sub gen parseOk now rest (i + 1) _ it0.id
            rw [hseen]
            exact List.mem_cons_self _ _
          · rw [he]
            exact hfr
        · obtain ⟨h1, h2⟩ := hmem it ht
          refine ⟨h1, fun hin => h2 ?_⟩
          rw [hseen]
          exact List.mem_cons_of_mem _ hin

theorem sanitizeEntry_obj_some (gen : Nat → JStr) (parseOk : JStr → Bool)
    (now : JStr) (i : Nat) (e : JVal) (st : SanState)
    (h : e.isObjLike = true) :
    ∃ it, (sanitizeEntry gen parseOk now i e st).1 = some it := by
  by_cases hs : (resolveCand gen st.ctr e).1 ∈ st.seen
  · exact ⟨_, by rw [sanitizeEntry_dup gen parseOk now i e st h hs]⟩
  · exact ⟨_, by rw [sanitizeEntry_new gen parseOk now i e st h hs]⟩

theorem sanitizeGo_len (gen : Nat → JStr) (parseOk : JStr → Bool)
    (now : JStr) (l : List JVal) :
    ∀ (i : Nat) (st : SanState),
      (sanitizeGo gen parseOk now i l st).1.length =
        (l.filter JVal.isObjLike).length := by
  induction l with
  | nil => intro i st; rw [sanitizeGo_nil]; rfl
  | cons e rest ih =>
    intro i st
    rw [sanitizeGo_cons]
    by_cases h : e.isObjLike = true
    · rcases sanitizeEntry_obj_some gen parseOk now i e st h with ⟨it, hit⟩
      rw [List.filter_cons_of_pos (by simpa using h)]
      simp [hit, ih]
    · have hb : e.isObjLike = false := by simpa using h
      rw [sanitizeEntry_skip gen parseOk now i e st hb,
        List.filter_cons_of_neg (by simp [hb])]
      simp [ih]

/-! ## Duplicate-id diagnostics -/

theorem resolveCand_of_candId (gen : Nat → JStr) (ctr : Nat) (e : JVal)
    (c : JStr) (hc : candId e = some c) :
    resolveCand gen ctr e = (c, ctr) := by
  cases hf : e.fId with
  | vStr s =>
    simp only [candId, hf] at hc
    simp only [resolveCand, hf]
    by_cases h0 : jsTrim s = []
    · rw [if_pos h0] at hc
      cases hc
    · rw [if_neg h0] at hc
      rw [if_neg h0, Option.some.inj hc]
  | vUndef =>
    simp only [candId, hf] at hc
    exact Option.noConfusion hc
  | vNull =>
    simp only [candId, hf] at hc
    exact Option.noConfusion hc
  | vBool b =>
    simp only [candId, hf] at hc
    exact Option.noConfusion hc
  | vNum n =>
    simp only [candId, hf] at hc
    exact Option.noConfusion hc
  | vArr l =>
    simp only [candId, hf] at hc
    exact Option.noConfusion hc
  | vObj a1 a2 a3 a4 a5 a6 =>
    simp only [candId, hf] at hc
    exact Option.noConfusion hc

theorem sanitizeEntry_cand_seen (gen : Nat → JStr) (parseOk : JStr → Bool)
    (now : JStr) (i : Nat) (e : JVal) (st : SanState) (c : JStr)
    (h : e.isObjLike = true) (hc : candId e = some c) :
    c ∈ (sanitizeEntry gen parseOk now i e st).2.2.seen := by
  have hr := resolveCand_of_candId gen st.ctr e c hc
  by_cases hs : (resolveCand gen st.ctr e).1 ∈ st.seen
  · rw [sanitizeEntry_dup gen parseOk now i e st h hs]
    have hcs : c ∈ st.seen := by
      rw [hr] at hs
      exact hs
    exact List.mem_cons_of_mem _ hcs
  · rw [sanitizeEntry_new gen parseOk now i e st h hs]
    have hcc : (resolveCand gen st.ctr e).1 = c := by rw [hr]
    rw [hcc]
    exact List.mem_cons_self _ _

theorem sanitizeEntry_dup_msg (gen : Nat → JStr) (parseOk : JStr → Bool)
    (now : JStr) (i : Nat) (e : JVal) (st : SanState) (c : JStr)
    (h : e.isObjLike = true) (hc : candId e = some c) (hs : c ∈ st.seen) :
    Msg.duplicateId c (newIdOf gen st.ctr e) i ∈
      (sanitizeEntry gen parseOk now i e st).2.1 := by
  have hr := resolveCand_of_candId gen st.ctr e c hc
  have hs2 : (resolveCand gen st.ctr e).1 ∈ st.seen := by
    rw [hr]
    exact hs
  rw [sanitizeEntry_dup gen parseOk now i e st h hs2]
  have hcc : (resolveCand gen st.ctr e).1 = c := by rw [hr]
  rw [hcc]
  exact List.mem_cons_self _ _

theorem sanitizeGo_append (gen : Nat → JStr) (parseOk : JStr → Bool)
    (now : JStr) (l1 : List JVal) :
    ∀ (l2 : List JVal) (i : Nat) (st : SanState),
      sanitizeGo gen parseOk now i (l1 ++ l2) st =
        ((sanitizeGo gen parseOk now i l1 st).1 ++
            (sanitizeGo gen parseOk now (i + l1.length) l2
              (sanitizeGo gen parseOk now i l1 st).2.2).1,
          (sanitizeGo gen parseOk now i l1 st).2.1 ++
            (sanitizeGo gen parseOk now (i + l1.length) l2
              (sanitizeGo gen parseOk now i l1 st).2.2).2.1,
          (sanitizeGo gen parseOk now (i + l1.length) l2
            (sanitizeGo gen parseOk now i l1 st).2.2).2.2) := by
  induction l1 with
  | nil =>
    intro l2 i st
    rw [sanitizeGo_nil, List.nil_append]
    simp
  | cons e rest ih =>
    intro l2 i st
    rw [List.cons_append, sanitizeGo_cons, ih, sanitizeGo_cons]
    have harith : i + 1 + rest.length = i + (e :: rest).length := by
      rw [List.length_cons]
      omega
    rw [harith, List.append_assoc]
    simp

theorem sanitizeGo_dup_after (gen : Nat → JStr) (parseOk : JStr → Bool)
    (now : JStr) (l zs : List JVal) (e : JVal) (c : JStr) (i : Nat)
    (st : SanState) (hc : candId e = some c) (h : e.isObjLike = true)
    (hseen : c ∈ st.seen) :
    ∃ nid, nid ≠ c ∧
      Msg.duplicateId c nid (i + l.length) ∈
        (sanitizeGo gen parseOk now i (l ++ e :: zs) st).2.1 := by
  rw [sanitizeGo_append]
  have hseen1 : c ∈ (sanitizeGo gen parseOk now i l st).2.2.seen :=
    sanitizeGo_seen_sub gen parseOk now l i st c hseen
  rw [sanitizeGo_cons]
  refine ⟨newIdOf gen (sanitizeGo gen parseOk now i l st).2.2.ctr e, ?_, ?_⟩
  · have hr := resolveCand_of_candId gen
      (sanitizeGo gen parseOk now i l st).2.2.ctr e c hc
    unfold newIdOf
    rw [hr]
    exact ne_append_cons c '-' _
  · apply List.mem_append_right
    apply List.mem_append_left
    exact sanitizeEntry_dup_msg gen parseOk now (i + l.length) e
      (sanitizeGo gen parseOk now i l st).2.2 c h hc hseen1

/-- C4: when two accepted entries of a batch resolve to the same candidate id
`c`, the sanitizer emits a `duplicateId` diagnostic naming `c` at the later
entry's index with a replacement id different from `c`, keeps every accepted
entry (one output item per object-like entry, so neither colliding entry is
dropped), and — whenever every freshly minted replacement id was itself
unused — the output ids are pairwise distinct. -/
theorem duplicate_id_resolution (gen : Nat → JStr) (parseOk : JStr → Bool)
    (now : JStr) (xs ys zs : List JVal) (e1 e2 : JVal) (c : JStr)
    (h1 : e1.isObjLike = true) (h2 : e2.isObjLike = true)
    (hc1 : candId e1 = some c) (hc2 : candId e2 = some c) :
    (∃ nid, nid ≠ c ∧
        Msg.duplicateId c nid (xs.length + 1 + ys.length) ∈
          (sanitizeChecklistItems gen parseOk now
            (xs ++ e1 :: ys ++ e2 :: zs)).messages) ∧
      (sanitizeChecklistItems gen parseOk now
            (xs ++ e1 :: ys ++ e2 :: zs)).items.length =
        ((xs ++ e1 :: ys ++ e2 :: zs).filter JVal.isObjLike).length ∧
      ((sanitizeChecklistItems gen parseOk now
            (xs ++ e1 :: ys ++ e2 :: zs)).freshOk = true →
        ((sanitizeChecklistItems gen parseOk now
            (xs ++ e1 :: ys ++ e2 :: zs)).items.map
          (fun it => it.id)).Nodup) := by
  refine ⟨?_, ?_, ?_⟩
  · simp only [sanitizeChecklistItems]
    rw [sanitizeGo_append, sanitizeGo_cons]
    have hcseen : c ∈
        (sanitizeGo gen parseOk now 0 (xs ++ e1 :: ys) ⟨[], 0, true⟩).2.2.seen := by
      rw [sanitizeGo_append, sanitizeGo_cons]
      apply sanitizeGo_seen_sub
      exact sanitizeEntry_cand_seen gen parseOk now (0 + xs.length) e1 _ c h1 hc1
    refine ⟨newIdOf gen
      (sanitizeGo gen parseOk now 0 (xs ++ e1 :: ys) ⟨[], 0, true⟩).2.2.ctr e2,
      ?_, ?_⟩
    · have hr := resolveCand_of_candId gen
        (sanitizeGo gen parseOk now 0 (xs ++ e1 :: ys) ⟨[], 0, true⟩).2.2.ctr
        e2 c hc2
      unfold newIdOf
      rw [hr]
      exact ne_append_cons c '-' _
    · apply List.mem_append_right
      apply List.mem_append_left
      have hmem := sanitizeEntry_dup_msg gen parseOk now
        (0 + (xs ++ e1 :: ys).length) e2
        (sanitizeGo gen parseOk now 0 (xs ++ e1 :: ys) ⟨[], 0, true⟩).2.2 c
        h2 hc2 hcseen
      have hidx : 0 + (xs ++ e1 :: ys).length = xs.length + 1 + ys.length := by
        rw [List.length_append, List.length_cons]
        omega
      rw [← hidx]
      exact hmem
  · simp only [sanitizeChecklistItems]
    exact sanitizeGo_len gen parseOk now (xs ++ e1 :: ys ++ e2 :: zs) 0 _
  · intro hok
    simp only [sanitizeChecklistItems] at hok ⊢
    exact (sanitizeGo_ids gen parseOk now
      (xs ++ e1 :: ys ++ e2 :: zs) 0 ⟨[], 0, true⟩ hok).1

/-- Witness for `duplicate_id_resolution` on a two-entry batch with the same
id `a`. -/
theorem duplicate_id_resolution_witness :
    (JVal.isObjLike rawDupA = true ∧ candId rawDupA = some ['a']) ∧
      ((∃ nid, nid ≠ (['a'] : JStr) ∧
          Msg.duplicateId ['a'] nid
              ((List.length ([] : List JVal)) + 1 +
                (List.length ([] : List JVal))) ∈
            (sanitizeChecklistItems gen0 parseOk0 now0
              ([] ++ rawDupA :: [] ++ rawDupA :: [])).messages) ∧
        (sanitizeChecklistItems gen0 parseOk0 now0
              ([] ++ rawDupA :: [] ++ rawDupA :: [])).items.length =
          (([] ++ rawDupA :: [] ++ rawDupA :: []).filter
            JVal.isObjLike).length ∧
        ((sanitizeChecklistItems gen0 parseOk0 now0
              ([] ++ rawDupA :: [] ++ rawDupA :: [])).freshOk = true →
          ((sanitizeChecklistItems gen0 parseOk0 now0
              ([] ++ rawDupA :: [] ++ rawDupA :: [])).items.map
            (fun it => it.id)).Nodup)) :=
  ⟨⟨by decide, by decide⟩,
    duplicate_id_resolution gen0 parseOk0 now0 [] [] [] rawDupA rawDupA ['a']
      (by decide) (by decide) (by decide) (by decide)⟩

/-! ## dependsOn repair -/

theorem resolveDeps_non_arr (id : JStr) (v : JVal) (h : v.isArr = false) :
    resolveDeps id v = [] := by
  cases v
  case vArr l => simp [JVal.isArr] at h
  all_goals rfl

theorem truthy_false_not_arr (v : JVal) (h : v.truthy = false) :
    v.isArr = false := by
  cases v
  case vArr l => simp [JVal.truthy] at h
  all_goals rfl

theorem sanitizeEntry_accept_shape (gen : Nat → JStr) (parseOk : JStr → Bool)
    (now : JStr) (i : Nat) (e : JVal) (st : SanState) (it : ChecklistItem)
    (hacc : (sanitizeEntry gen parseOk now i e st).1 = some it) :
    it = mkItem parseOk now it.id e ∧
      ((sanitizeEntry gen parseOk now i e st).2.1 =
          depMsgs e (resolveTitle e) ∨
        (sanitizeEntry gen parseOk now i e st).2.1 =
          Msg.duplicateId (resolveCand gen st.ctr e).1 (newIdOf gen st.ctr e)
              i :: depMsgs e (resolveTitle e)) := by
  by_cases h : e.isObjLike = true
  · by_cases hs : (resolveCand gen st.ctr e).1 ∈ st.seen
    · rw [sanitizeEntry_dup gen parseOk now i e st h hs] at hacc ⊢
      have hit := Option.some.inj hacc
      constructor
      · rw [← hit]
        rfl
      · right
        rfl
    · rw [sanitizeEntry_new gen parseOk now i e st h hs] at hacc ⊢
      have hit := Option.some.inj hacc
      constructor
      · rw [← hit]
        rfl
      · left
        rfl
  · have hb : e.isObjLike = false := by simpa using h
    rw [sanitizeEntry_skip gen parseOk now i e st hb] at hacc
    cases hacc

/-- C8 (amended): for every accepted entry, a truthy non-array `dependsOn`
(such as a nonzero number or nonempty string) is reset to the empty list and
an `invalidDependsOn` diagnostic naming the entry's title is emitted; a falsy
non-array value — `null`, `0`, `false`, the empty string, or an absent
property — is reset to the empty list silently, with no diagnostic; an
array-valued `dependsOn` keeps exactly its string entries, trimmed, nonempty,
with the item's own id removed and duplicates collapsed to the first
occurrence. -/
theorem dependsOn_repair_diagnosis (gen : Nat → JStr) (parseOk : JStr → Bool)
    (now : JStr) (i : Nat) (e : JVal) (st : SanState) (it : ChecklistItem)
    (hacc : (sanitizeEntry gen parseOk now i e st).1 = some it) :
    (e.fDependsOn.truthy = true → e.fDependsOn.isArr = false →
        it.dependsOn = [] ∧
          Msg.invalidDependsOn it.title ∈
            (sanitizeEntry gen parseOk now i e st).2.1) ∧
      (e.fDependsOn.truthy = false →
        it.dependsOn = [] ∧
          Msg.invalidDependsOn it.title ∉
            (sanitizeEntry gen parseOk now i e st).2.1) ∧
      (∀ l, e.fDependsOn = JVal.vArr l →
        it.dependsOn =
          dedupFirst ((((l.filterMap JVal.asStr).map jsTrim).filter
            (fun d => d ≠ [])).filter (fun d => d ≠ it.id))) := by
  obtain ⟨hit, hmsgs⟩ :=
    sanitizeEntry_accept_shape gen parseOk now i e st it hacc
  have hdep : it.dependsOn = resolveDeps it.id e.fDependsOn := by
    conv_lhs => rw [hit]
    rfl
  have htit : it.title = resolveTitle e := by
    conv_lhs => rw [hit]
    rfl
  refine ⟨?_, ?_, ?_⟩
  · intro ht hna
    constructor
    · rw [hdep]
      exact resolveDeps_non_arr it.id _ hna
    · have hd : depMsgs e (resolveTitle e) =
          [Msg.invalidDependsOn (resolveTitle e)] := by
        unfold depMsgs
        rw [if_pos (by simp [ht, hna])]
      rw [htit]
      rcases hmsgs with hm | hm <;> rw [hm, hd]
      · exact List.mem_cons_self _ _
      · exact List.mem_cons_of_mem _ (List.mem_cons_self _ _)
  · intro ht
    have hna := truthy_false_not_arr _ ht
    constructor
    · rw [hdep]
      exact resolveDeps_non_arr it.id _ hna
    · have hd : depMsgs e (resolveTitle e) = [] := by
        unfold depMsgs
        rw [if_neg (by simp [ht])]
      rcases hmsgs with hm | hm <;> rw [hm, hd]
      · exact List.not_mem_nil _
      · intro hmem
        rcases List.mem_singleton.mp hmem with hcontra
        cases hcontra
  · intro l hl
    rw [hdep, hl]
    rfl

/-- C8 counterexample: an entry whose raw `dependsOn` is `null` (falsy, not
a sequence) is accepted with `dependsOn` reset to the empty list, but the
sanitizer emits no diagnostic at all — refuting "a diagnostic is emitted for
that entry" for falsy non-sequence values. -/
theorem dependsOn_falsy_silent_cex :
    (sanitizeChecklistItems gen0 parseOk0 now0 [rawNullDeps]).messages = [] ∧
      (sanitizeChecklistItems gen0 parseOk0 now0 [rawNullDeps]).items.map
          (fun it => it.dependsOn) = [[]] := by decide

/-- Witness for `dependsOn_repair_diagnosis` on an entry whose `dependsOn`
is the truthy non-array value `5`. -/
theorem dependsOn_repair_diagnosis_witness :
    ((sanitizeEntry gen0 parseOk0 now0 0 rawNumDeps ⟨[], 0, true⟩).1 =
        some ⟨['b'], ['t'], none, [], false, []⟩) ∧
      ((JVal.fDependsOn rawNumDeps).truthy = true →
          (JVal.fDependsOn rawNumDeps).isArr = false →
          (ChecklistItem.mk ['b'] ['t'] none [] false []).dependsOn = [] ∧
            Msg.invalidDependsOn
                (ChecklistItem.mk ['b'] ['t'] none [] false []).title ∈
              (sanitizeEntry gen0 parseOk0 now0 0 rawNumDeps ⟨[], 0, true⟩).2.1) ∧
        ((JVal.fDependsOn rawNumDeps).truthy = false →
          (ChecklistItem.mk ['b'] ['t'] none [] false []).dependsOn = [] ∧
            Msg.invalidDependsOn
                (ChecklistItem.mk ['b'] ['t'] none [] false []).title ∉
              (sanitizeEntry gen0 parseOk0 now0 0 rawNumDeps ⟨[], 0, true⟩).2.1) ∧
        (∀ l, JVal.fDependsOn rawNumDeps = JVal.vArr l →
          (ChecklistItem.mk ['b'] ['t'] none [] false []).dependsOn =
            dedupFirst ((((l.filterMap JVal.asStr).map jsTrim).filter
              (fun d => d ≠ [])).filter
                (fun d =>
                  d ≠ (ChecklistItem.mk ['b'] ['t'] none [] false []).id))) :=
  ⟨by decide,
    dependsOn_repair_diagnosis gen0 parseOk0 now0 0 rawNumDeps ⟨[], 0, true⟩
      ⟨['b'], ['t'], none, [], false, []⟩ (by decide)⟩

/-! ## Sanitizer output is clean -/

theorem resolveCand_clean (gen : Nat → JStr) (hg : GenClean gen) (ctr : Nat)
    (e : JVal) :
    jsTrim (resolveCand gen ctr e).1 = (resolveCand gen ctr e).1 ∧
      (resolveCand gen ctr e).1 ≠ [] := by
  cases hf : e.fId
  case vStr s =>
    simp only [resolveCand, hf]
    by_cases h0 : jsTrim s = []
    · rw [if_pos h0]
      exact ⟨jsTrim_of_noWS _ (hg ctr).1, (hg ctr).2⟩
    · rw [if_neg h0]
      exact ⟨jsTrim_idem s, h0⟩
  all_goals
    simp only [resolveCand, hf]
  all_goals
    exact ⟨jsTrim_of_noWS _ (hg ctr).1, (hg ctr).2⟩

theorem newIdOf_clean (gen : Nat → JStr) (hg : GenClean gen) (ctr : Nat)
    (e : JVal) :
    jsTrim (newIdOf gen ctr e) = newIdOf gen ctr e ∧
      newIdOf gen ctr e ≠ [] := by
  obtain ⟨h1, h2⟩ := resolveCand_clean gen hg ctr e
  constructor
  · unfold newIdOf
    apply jsTrim_append_sep _ _ h1 h2
    intro ch hch
    exact (hg _).1 ch (List.mem_of_mem_take hch)
  · unfold newIdOf
    intro h
    rw [List.append_eq_nil] at h
    cases h.2

theorem resolveTitle_clean (e : JVal) :
    jsTrim (resolveTitle e) = resolveTitle e ∧ resolveTitle e ≠ [] := by
  have hu : jsTrim untitledStep = untitledStep ∧ untitledStep ≠ [] :=
    ⟨by decide, by decide⟩
  cases hf : e.fTitle
  case vStr s =>
    simp only [resolveTitle, hf]
    by_cases h0 : jsTrim s = []
    · rw [if_pos h0]
      exact hu
    · rw [if_neg h0]
      exact ⟨jsTrim_idem s, h0⟩
  all_goals
    simp only [resolveTitle, hf]
  all_goals
    exact hu

theorem resolveCreatedAt_ok (parseOk : JStr → Bool) (now : JStr) (e : JVal)
    (hnow : parseOk now = true) :
    parseOk (resolveCreatedAt parseOk now e) = true := by
  simp only [resolveCreatedAt]
  split
  · assumption
  · exact hnow

theorem resolveDeps_clean (id : JStr) (v : JVal) :
    (resolveDeps id v).Nodup ∧
      ∀ d ∈ resolveDeps id v, jsTrim d = d ∧ d ≠ [] ∧ d ≠ id := by
  cases v
  case vArr l =>
    constructor
    · exact dedupFirst_nodup _
    · intro d hd
      have hd2 := mem_dedupFirst _ _ hd
      have hd3 := List.mem_filter.mp hd2
      have hd4 := List.mem_filter.mp hd3.1
      rcases List.mem_map.mp hd4.1 with ⟨x, hx, hxe⟩
      refine ⟨?_, ?_, ?_⟩
      · rw [← hxe]
        exact jsTrim_idem x
      · simpa using hd4.2
      · simpa using hd3.2
  all_goals
    simp [resolveDeps]

theorem mkItem_clean (parseOk : JStr → Bool) (now : JStr) (id : JStr)
    (e : JVal) (hnow : parseOk now = true)
    (hid : jsTrim id = id ∧ id ≠ []) :
    CleanItem parseOk (mkItem parseOk now id e) := by
  refine ⟨hid.1, hid.2, (resolveTitle_clean e).1, (resolveTitle_clean e).2,
    resolveCreatedAt_ok parseOk now e hnow,
    (resolveDeps_clean id e.fDependsOn).1,
    fun d hd => (resolveDeps_clean id e.fDependsOn).2 d hd⟩

theorem sanitizeEntry_clean (gen : Nat → JStr) (parseOk : JStr → Bool)
    (now : JStr) (i : Nat) (e : JVal) (st : SanState) (it : ChecklistItem)
    (hg : GenClean gen) (hnow : parseOk now = true)
    (hacc : (sanitizeEntry gen parseOk now i e st).1 = some it) :
    CleanItem parseOk it := by
  by_cases h : e.isObjLike = true
  · by_cases hs : (resolveCand gen st.ctr e).1 ∈ st.seen
    · rw [sanitizeEntry_dup gen parseOk now i e st h hs] at hacc
      rw [← Option.some.inj hacc]
      exact mkItem_clean parseOk now _ e hnow (newIdOf_clean gen hg st.ctr e)
    · rw [sanitizeEntry_new gen parseOk now i e st h hs] at hacc
      rw [← Option.some.inj hacc]
      exact mkItem_clean parseOk now _ e hnow (resolveCand_clean gen hg st.ctr e)
  · have hb : e.isObjLike = false := by simpa using h
    rw [sanitizeEntry_skip gen parseOk now i e st hb] at hacc
    cases hacc

theorem sanitizeGo_clean (gen : Nat → JStr) (parseOk : JStr → Bool)
    (now : JStr) (hg : GenClean gen) (hnow : parseOk now = true)
    (l : List JVal) :
    ∀ (i : Nat) (st : SanState) (it : ChecklistItem),
      it ∈ (sanitizeGo gen parseOk now i l st).1 → CleanItem parseOk it := by
  induction l with
  | nil => intro i st it h; rw [sanitizeGo_nil] at h; cases h
  | cons e rest ih =>
    intro i st it h
    rw [sanitizeGo_cons] at h
    simp only [List.mem_append] at h
    rcases h with h1 | h2
    · cases hacc : (sanitizeEntry gen parseOk now i e st).1 with
      | none =>
        rw [hacc] at h1
        cases h1
      | some it0 =>
        rw [hacc] at h1
        simp only [Option.toList_some, List.mem_singleton] at h1
        rw [h1]
        exact sanitizeEntry_clean gen parseOk now i e st it0 hg hnow hacc
    · exact ih (i + 1) _ it h2

/-! ## Second pass repairs nothing -/

theorem sanitizeEntry_clean_item (gen2 : Nat → JStr) (parseOk : JStr → Bool)
    (now2 : JStr) (i : Nat) (it : ChecklistItem) (st : SanState)
    (hclean : CleanItem parseOk it) (hni : it.id ∉ st.seen) :
    sanitizeEntry gen2 parseOk now2 i (itemToJVal it) st =
      (some it, [], ⟨it.id :: st.seen, st.ctr, st.freshOk⟩) := by
  obtain ⟨iid, ititle, idesc, ideps, iai, ica⟩ := it
  obtain ⟨hid, hidne, htit, htitne, hca, hnd, hdeps⟩ := hclean
  simp only at hid hidne htit htitne hca hnd hdeps hni
  have hcand : resolveCand gen2 st.ctr
      (itemToJVal ⟨iid, ititle, idesc, ideps, iai, ica⟩) = (iid, st.ctr) := by
    simp only [resolveCand, itemToJVal, JVal.fId]
    rw [hid, if_neg hidne]
  have hobj : (itemToJVal ⟨iid, ititle, idesc, ideps, iai, ica⟩).isObjLike =
      true := rfl
  have hs : (resolveCand gen2 st.ctr
      (itemToJVal ⟨iid, ititle, idesc, ideps, iai, ica⟩)).1 ∉ st.seen := by
    rw [hcand]
    exact hni
  rw [sanitizeEntry_new gen2 parseOk now2 i _ st hobj hs, hcand]
  have htitle : resolveTitle (itemToJVal ⟨iid, ititle, idesc, ideps, iai, ica⟩) =
      ititle := by
    simp only [resolveTitle, itemToJVal, JVal.fTitle]
    rw [htit, if_neg htitne]
  have hdesc : resolveDesc (itemToJVal ⟨iid, ititle, idesc, ideps, iai, ica⟩) =
      idesc := by
    cases idesc <;> rfl
  have hdep : resolveDeps iid
      (itemToJVal ⟨iid, ititle, idesc, ideps, iai, ica⟩).fDependsOn = ideps := by
    simp only [resolveDeps, itemToJVal, JVal.fDependsOn]
    rw [List.filterMap_map]
    have hcomp : List.filterMap (JVal.asStr ∘ JVal.vStr) ideps = ideps := by
      have he : (JVal.asStr ∘ JVal.vStr) = (some : JStr → Option JStr) :=
        funext fun s => rfl
      rw [he]
      exact List.filterMap_some ideps
    rw [hcomp]
    have hmt : ideps.map jsTrim = ideps := by
      have := List.map_congr_left (l := ideps) (f := jsTrim) (g := id)
        (fun d hd => (hdeps d hd).1)
      rw [this, List.map_id]
    rw [hmt]
    have hf1 : ideps.filter (fun d => d ≠ []) = ideps :=
      List.filter_eq_self.mpr (fun d hd => by simp [(hdeps d hd).2.1])
    rw [hf1]
    have hf2 : ideps.filter (fun d => d ≠ iid) = ideps :=
      List.filter_eq_self.mpr (fun d hd => by simp [(hdeps d hd).2.2])
    rw [hf2]
    exact dedupFirst_eq_self ideps hnd
  have hcreated : resolveCreatedAt parseOk now2
      (itemToJVal ⟨iid, ititle, idesc, ideps, iai, ica⟩) = ica := by
    simp only [resolveCreatedAt, itemToJVal, JVal.fCreatedAt]
    rw [if_pos hca]
  have hmk : mkItem parseOk now2 iid
      (itemToJVal ⟨iid, ititle, idesc, ideps, iai, ica⟩) =
      ChecklistItem.mk iid ititle idesc ideps iai ica := by
    have hai : (itemToJVal
        ⟨iid, ititle, idesc, ideps, iai, ica⟩).fAiGenerated.truthy = iai := rfl
    simp [mkItem, ChecklistItem.mk.injEq, htitle, hdesc, hdep, hcreated, hai]
  have hdm : depMsgs (itemToJVal ⟨iid, ititle, idesc, ideps, iai, ica⟩)
      (resolveTitle (itemToJVal ⟨iid, ititle, idesc, ideps, iai, ica⟩)) = [] :=
    rfl
  rw [hmk, hdm]

theorem sanitizeGo_clean_pass (gen2 : Nat → JStr) (parseOk : JStr → Bool)
    (now2 : JStr) (l : List ChecklistItem) :
    ∀ (i : Nat) (st : SanState),
      (∀ it ∈ l, CleanItem parseOk it) →
      (l.map (fun it => it.id)).Nodup →
      (∀ it ∈ l, it.id ∉ st.seen) →
      (sanitizeGo gen2 parseOk now2 i (l.map itemToJVal) st).1 = l ∧
        (sanitizeGo gen2 parseOk now2 i (l.map itemToJVal) st).2.1 = [] := by
  induction l with
  | nil =>
    intro i st _ _ _
    rw [List.map_nil, sanitizeGo_nil]
    exact ⟨rfl, rfl⟩
  | cons it rest ih =>
    intro i st hclean hnd hdis
    rw [List.map_cons, sanitizeGo_cons]
    have hstep := sanitizeEntry_clean_item gen2 parseOk now2 i it st
      (hclean it (List.mem_cons_self _ _)) (hdis it (List.mem_cons_self _ _))
    rw [hstep]
    simp only [List.map_cons] at hnd
    have hnd2 := List.nodup_cons.mp hnd
    have hih := ih (i + 1) ⟨it.id :: st.seen, st.ctr, st.freshOk⟩
      (fun x hx => hclean x (List.mem_cons_of_mem _ hx))
      hnd2.2
      (fun x hx hmem => by
        rcases List.mem_cons.mp hmem with he | hsn
        · exact hnd2.1 (List.mem_map.mpr ⟨x, hx, he⟩)
        · exact hdis x (List.mem_cons_of_mem _ hx) hsn)
    obtain ⟨hia, hib⟩ := hih
    constructor
    · simp only [Option.toList_some, List.singleton_append]
      rw [hia]
    · simp only [List.nil_append]
      exact hib

/-- C5: feeding the valid items of one sanitizer pass back into the
sanitizer returns exactly the same items, every field unchanged, and emits
no diagnostics — provided the id supply is UUID-shaped (nonempty, no
whitespace), the current-time string parses as a date, and every replacement
id minted in the first pass was itself unused (the `freshOk` flag). -/
theorem sanitize_idem (gen gen2 : Nat → JStr) (parseOk : JStr → Bool)
    (now now2 : JStr) (raw : List JVal) (hg : GenClean gen)
    (hnow : parseOk now = true)
    (hfresh : (sanitizeChecklistItems gen parseOk now raw).freshOk = true) :
    (sanitizeChecklistItems gen2 parseOk now2
        ((sanitizeChecklistItems gen parseOk now raw).items.map
          itemToJVal)).items =
      (sanitizeChecklistItems gen parseOk now raw).items ∧
      (sanitizeChecklistItems gen2 parseOk now2
        ((sanitizeChecklistItems gen parseOk now raw).items.map
          itemToJVal)).messages = [] := by
  simp only [sanitizeChecklistItems] at hfresh ⊢
  have hids := sanitizeGo_ids gen parseOk now raw 0 ⟨[], 0, true⟩ hfresh
  exact sanitizeGo_clean_pass gen2 parseOk now2
    (sanitizeGo gen parseOk now 0 raw ⟨[], 0, true⟩).1 0 ⟨[], 0, true⟩
    (fun it hit => sanitizeGo_clean gen parseOk now hg hnow raw 0 _ it hit)
    hids.1
    (fun it _ => List.not_mem_nil _)

/-- Witness for `sanitize_idem` on a batch with a duplicate id, which
exercises the replacement-id path of the first pass. -/
theorem sanitize_idem_witness :
    GenClean gen0 ∧ parseOk0 now0 = true ∧
      (sanitizeChecklistItems gen0 parseOk0 now0
        [rawDupA, rawDupA]).freshOk = true ∧
      ((sanitizeChecklistItems gen0 parseOk0 now0
          ((sanitizeChecklistItems gen0 parseOk0 now0
            [rawDupA, rawDupA]).items.map itemToJVal)).items =
        (sanitizeChecklistItems gen0 parseOk0 now0 [rawDupA, rawDupA]).items ∧
      (sanitizeChecklistItems gen0 parseOk0 now0
          ((sanitizeChecklistItems gen0 parseOk0 now0
            [rawDupA, rawDupA]).items.map itemToJVal)).messages = []) :=
  ⟨by
      intro k
      show (∀ c ∈ (['u'] : JStr), isWS c = false) ∧ (['u'] : JStr) ≠ []
      exact ⟨by decide, by decide⟩,
    rfl, by decide,
    sanitize_idem gen0 gen0 parseOk0 now0 now0 [rawDupA, rawDupA]
      (by
        intro k
        show (∀ c ∈ (['u'] : JStr), isWS c = false) ∧ (['u'] : JStr) ≠ []
        exact ⟨by decide, by decide⟩)
      rfl (by decide)⟩
